import Mathlib

/-!
Verification of the dynamic-value engine and change-observation system of
the etro media-composition library, against its natural-language
specification. The layer code (`src/layer/visual.ts`) is embedded directly
from the source; the utility module (`util.ts`: keyframes, interpolators,
`val`, `applyOptions`, `watchPublic`) and the event bus (`event.ts`) are not
present in the source tree, so they are modelled from the specification
text, as marked on each definition.
-/

set_option autoImplicit false

namespace Etro

/-- Runtime values of the embedded dynamic-value engine. Numbers are
modelled as rationals; `null` and `undef` model the two JavaScript
absent values, and `obj` models a keyed structure (plain object). -/
inductive EValue where
  | num (q : ℚ)
  | str (s : String)
  | bool (b : Bool)
  | null
  | undef
  | obj (fields : List (String × EValue))

/-- First-match lookup in an association list, as JavaScript property
access on a record with distinct keys. -/
def lookupF {κ α : Type} [DecidableEq κ] (k : κ) : List (κ × α) → Option α
  | [] => none
  | (k2, v) :: rest => if k2 = k then some v else lookupF k rest

/-- JavaScript truthiness of an `EValue`: `false`, `0`, the empty string,
`null` and `undefined` are falsy; every object is truthy. -/
def jsTruthy : EValue → Bool
  | .num q => decide (q ≠ 0)
  | .str s => decide (s ≠ "")
  | .bool b => b
  | .null => false
  | EValue.undef => false
  | .obj _ => true

/-- An interpolation strategy: maps two endpoint values and a progress
fraction to an interpolated value. -/
def Interp : Type := EValue → EValue → ℚ → EValue

/-- Modelled from the spec: a control point of a Keyframe Track —
`(time, value, interpolator?)`; the interpolator is optional (hold
semantics when absent). `util.ts` is missing from the source tree. -/
structure CtrlPt where
  time : ℚ
  value : EValue
  interp : Option Interp

mutual

/-- Modelled from the spec: linear interpolation. For numbers,
`start + (end - start) * progress`; for keyed structures it applies
itself recursively to each corresponding key; non-numeric leaves are
left as the start value. `util.ts` is missing from the source tree. -/
def linearInterp : EValue → EValue → ℚ → EValue
  | .num a, .num b, p => .num (a + (b - a) * p)
  | .obj fa, .obj fb, p => .obj (linearInterpFields fa fb p)
  | a, _, _ => a

/-- Modelled from the spec: keyed-structure case of `linearInterp`,
recursing over the fields of the start structure and interpolating each
against the matching field of the end structure. -/
def linearInterpFields : List (String × EValue) → List (String × EValue) → ℚ →
    List (String × EValue)
  | [], _, _ => []
  | (k, v) :: rest, fb, p =>
    (k, match lookupF k fb with
        | some w => linearInterp v w p
        | none => v) :: linearInterpFields rest fb p

end

mutual

/-- Structural value equality of the embedded runtime values, modelling
the JavaScript value comparison used by the change observer to decide
whether a written value differs from bookkeeping state. -/
def beqV : EValue → EValue → Bool
  | .num a, .num b => a == b
  | .str a, .str b => a == b
  | .bool a, .bool b => a == b
  | .null, .null => true
  | EValue.undef, EValue.undef => true
  | .obj fa, .obj fb => beqFields fa fb
  | _, _ => false

/-- Field-list case of `beqV`. -/
def beqFields : List (String × EValue) → List (String × EValue) → Bool
  | [], [] => true
  | (k, v) :: r, (k2, v2) :: r2 => k == k2 && beqV v v2 && beqFields r r2
  | _, _ => false

end

/-- Modelled from the spec: resolution of a Keyframe Track strictly after
the first control point has been passed. Walks consecutive control
points; between a point `p` carrying an optional interpolator and the
next point `q`, a query time `t < q.time` yields
`interp p.value q.value ((t - p.time) / (q.time - p.time))` when the
interpolator is specified and `p.value` (hold) when it is not; at or
after the last point, the last value. -/
def resolveFrom (t : ℚ) : CtrlPt → List CtrlPt → EValue
  | p, [] => p.value
  | p, q :: rest =>
    if t < q.time then
      match p.interp with
      | some f => f p.value q.value ((t - p.time) / (q.time - p.time))
      | none => p.value
    else resolveFrom t q rest

/-- Modelled from the spec: `KeyFrame.resolve(time)`. Before the first
control point, the first value; otherwise walk the points with
`resolveFrom`. An empty track queried is a failure (`none`). -/
def kfResolve (pts : List CtrlPt) (t : ℚ) : Option EValue :=
  match pts with
  | [] => none
  | p :: rest => some (if t < p.time then p.value else resolveFrom t p rest)

/-- The value the spec prescribes between bracketing control points
`p0` and `p1`: interpolate with progress `(t - t0) / (t1 - t0)` when an
interpolator is specified on the earlier point, hold `p0.value` when not. -/
def interpVal (p0 p1 : CtrlPt) (t : ℚ) : EValue :=
  match p0.interp with
  | some f => f p0.value p1.value ((t - p0.time) / (p1.time - p0.time))
  | none => p0.value

/-- Control points are strictly increasing in time. -/
def TimesIncreasing (pts : List CtrlPt) : Prop :=
  pts.Pairwise (fun a b => a.time < b.time)

/-- Modelled from the spec: a Dynamic Property is a closed sum — a
literal value, a Keyframe Track, or a computing function of the owning
object (referenced by id) and the current time. `util.ts` is missing
from the source tree. -/
inductive DynProp where
  | lit (v : EValue)
  | track (pts : List CtrlPt)
  | computed (f : ℕ → ℚ → EValue)

/-- A composition-graph node as seen by the dynamic value resolver: an
object id, a type tag, the id of the owning graph root (movie), and the
stored raw properties. -/
structure EtroObj where
  id : ℕ
  otype : String
  movieId : ℕ
  props : List (String × DynProp)

/-- A property filter: a transform `(resolvedValue, propertyName, owner)
-> value`, applied after shape resolution. -/
def PropFilter : Type := EValue → String → EtroObj → EValue

/-- A class-level mapping from property name to filter, fixed at
class-definition time and passed alongside each instance. -/
def Filters : Type := List (String × PropFilter)

/-- Modelled from the spec: safe navigation of the remaining segments of
a dotted path through a plain-object value — an absent intermediate
segment yields `undefined`, never an error. -/
def navigate : EValue → List String → EValue
  | v, [] => v
  | .obj fields, seg :: rest =>
    (match lookupF seg fields with
     | some v => navigate v rest
     | none => EValue.undef)
  | _, _ :: _ => EValue.undef

/-- Splitting a character list on the dot character, as the JavaScript
`path.split(".")` used by `val` on property paths. -/
def splitDots : List Char → List String
  | [] => [""]
  | c :: rest =>
    if c = '.' then "" :: splitDots rest
    else
      match splitDots rest with
      | [] => [String.mk [c]]
      | s :: ss => String.mk (c :: s.data) :: ss

/-- The segments of a dotted property path. -/
def splitPath (path : String) : List String :=
  splitDots path.data

/-- The top-level segment of a (possibly dotted) property path. -/
def topSeg (path : String) : String :=
  match splitPath path with
  | [] => path
  | seg :: _ => seg

/-- Modelled from the spec: the raw stored value of `owner` at a dotted
property path — the top-level segment indexes the stored properties, any
remaining segments navigate inside a literal object value. -/
def rawAt (o : EtroObj) (path : String) : DynProp :=
  match splitPath path with
  | [] => .lit EValue.undef
  | seg :: rest =>
    match lookupF seg o.props with
    | none => .lit EValue.undef
    | some dp =>
      match rest with
      | [] => dp
      | _ :: _ =>
        match dp with
        | .lit v => .lit (navigate v rest)
        | _ => .lit EValue.undef

/-- Modelled from the spec: resolution by shape — a Keyframe Track is
resolved at the given time, a computing function is invoked with
`(owner, time)`, and any other value is returned verbatim. -/
def shapeResolve (dp : DynProp) (ownerId : ℕ) (t : ℚ) : EValue :=
  match dp with
  | .lit v => v
  | .track pts => (kfResolve pts t).getD EValue.undef
  | .computed f => f ownerId t

/-- Modelled from the spec: a Resolution Cache key —
`(graph root, owner, propertyPath, time)`. -/
structure CacheKey where
  root : ℕ
  owner : ℕ
  path : String
  time : ℚ
  deriving DecidableEq

/-- The Resolution Cache: previously computed results for the current
evaluation epoch. -/
def Cache : Type := List (CacheKey × EValue)

/-- Cache lookup. -/
def cacheLookup (c : Cache) (k : CacheKey) : Option EValue :=
  lookupF k c

/-- Modelled from the spec: the cache-clear operation, wiping every
cached entry scoped to the given graph root. -/
def clearCachedValues (root : ℕ) (c : Cache) : Cache :=
  c.filter (fun e => decide (e.1.root ≠ root))

/-- Modelled from the spec: the uncached resolution pipeline of `val` —
read the raw value at the path, resolve it by shape, then apply the
registered property filter for the top-level property name (invoked with
the resolved value, the property name and the owner), if any. -/
def computeVal (filters : Filters) (o : EtroObj) (path : String) (t : ℚ) : EValue :=
  let resolved := shapeResolve (rawAt o path) o.id t
  match lookupF (topSeg path) filters with
  | some f => f resolved path o
  | none => resolved

/-- Modelled from the spec: the Dynamic Value Resolver `val`. Returns
the memoized result when the `(graph root, owner, path, time)` key is
cached for the current epoch, and otherwise computes the value and
caches it. -/
def val (filters : Filters) (c : Cache) (o : EtroObj) (path : String) (t : ℚ) :
    EValue × Cache :=
  let key : CacheKey := ⟨o.movieId, o.id, path, t⟩
  match cacheLookup c key with
  | some v => (v, c)
  | none =>
    let v := computeVal filters o path t
    (v, (key, v) :: c)

/-- From `src/layer/visual.ts` (`Visual.prototype.propertyFilters.width`):
the filter returns the resolved width when it is loosely unequal to
`undefined` (i.e. neither `null` nor `undefined`) and the owning movie
width otherwise; the `this._movie.width` back-reference is supplied as
the parameter. -/
def visualWidthFilter (movieW : EValue) : PropFilter :=
  fun w _ _ =>
    match w with
    | .null => movieW
    | EValue.undef => movieW
    | v => v

/-- From `src/layer/visual.ts` (`Visual.prototype.propertyFilters.height`):
as `visualWidthFilter`, with the movie height. -/
def visualHeightFilter (movieH : EValue) : PropFilter :=
  fun h _ _ =>
    match h with
    | .null => movieH
    | EValue.undef => movieH
    | v => v

/-- From `src/layer/visual.ts` (`Visual.beginRender`): the two dynamic
values assigned to the canvas dimensions, resolved through `val` with
the cache threaded between the calls. -/
def beginRenderDims (filters : Filters) (c : Cache) (o : EtroObj) (t : ℚ) :
    (EValue × EValue) × Cache :=
  let wc := val filters c o "width" t
  let hc := val filters wc.2 o "height" t
  ((wc.1, hc.1), hc.2)

/-- Modelled from the spec: a Change Event, with the target referenced
by object id. -/
structure ChangeEvent where
  target : ℕ
  etype : String
  property : String
  newValue : EValue

/-- Modelled from the spec: the instrumentation state `watchPublic`
attaches to an object — its type tag, its exclusion list, and the
bookkeeping of last-written values. `util.ts` is missing from the source
tree. -/
structure Watched where
  id : ℕ
  otype : String
  publicExcludes : List String
  book : List (String × EValue)

/-- Modelled from the spec: whether a write counts as a change — the
first write always counts, and a later write counts when the new value
differs from the bookkeeping state. -/
def writeCounts (w : Watched) (name : String) (v : EValue) : Bool :=
  match lookupF name w.book with
  | none => true
  | some old => !(beqV old v)

/-- Modelled from the spec: a write to an enumerable property of a
watched object. A property listed in `publicExcludes` is not
instrumented (no event); otherwise bookkeeping is updated and, when the
write counts, exactly one Change Event with
`type = "<obj.type>.change.modify"` is published synchronously. -/
def writeProp (w : Watched) (name : String) (v : EValue) :
    Watched × List ChangeEvent :=
  if name ∈ w.publicExcludes then (w, [])
  else
    ({ w with book := (name, v) :: w.book },
      if writeCounts w name v then
        [⟨w.id, w.otype ++ ".change.modify", name, v⟩]
      else [])

/-- Modelled from the spec: the events produced on a watched parent by a
write to a property of a watchable child held in a parent property. The
child is recursively instrumented only when the parent property is
itself watched; child events are re-published through the parent with a
dotted property path, and the exclusion list of the child governs the
child write. -/
def nestedWriteEvents (parent : Watched) (parentProp : String)
    (child : Watched) (childProp : String) (v : EValue) : List ChangeEvent :=
  if parentProp ∈ parent.publicExcludes then []
  else
    (writeProp child childProp v).2.map
      (fun e => ⟨parent.id, parent.otype ++ ".change.modify",
                 parentProp ++ "." ++ e.property, e.newValue⟩)

/-- Instance state of an option-application target: a total map from key
to value, with `undef` standing for a key that is not set. -/
def TargetState : Type := String → EValue

/-- Modelled from the spec: the merged state after `applyOptions` — for
every key of the default-options mapping that is still unset on the
target, assign the caller-supplied value when present and the declared
default otherwise; every other key keeps the target value, so
already-set state is never overwritten. -/
def mergedState (options defaults : List (String × EValue))
    (target : TargetState) : TargetState :=
  fun k =>
    match lookupF k defaults with
    | some d =>
      match target k with
      | EValue.undef => (lookupF k options).getD d
      | tv => tv
    | none => target k

/-- Modelled from the spec: `applyOptions(options, target)` against the
default-options mapping of the target. Every caller-supplied key must
exist among the defaults; otherwise an invalid-option error naming the
offending key aborts the entire merge before any assignment. -/
def applyOptions (options defaults : List (String × EValue))
    (target : TargetState) : Except String TargetState :=
  match options.find? (fun kv => decide (kv.1 ∉ defaults.map Prod.fst)) with
  | some kv => .error ("Invalid option: \x27" ++ kv.1 ++ "\x27")
  | none => .ok (mergedState options defaults target)

/-- From `src/layer/visual.ts`: an effect as seen by the layer — its raw
`enabled` dynamic property and its readiness flag. -/
structure VEffect where
  enabled : DynProp
  ready : Bool

/-- JavaScript truthiness of a raw dynamic property read without
resolution: a literal is truthy by value; a keyframe track or a
computing function is an object or a function and hence always truthy. -/
def dynTruthy : DynProp → Bool
  | .lit v => jsTruthy v
  | .track _ => true
  | .computed _ => true

/-- From `src/layer/visual.ts` (`Visual._applyEffects`): the body of one
loop iteration — the effect at index `i` is applied when the slot is
occupied and its raw `enabled` property is truthy
(`if (effect && effect.enabled)`). -/
def effectSlot (oe : Option VEffect) (i : ℕ) : List ℕ :=
  match oe with
  | some eff => if dynTruthy eff.enabled then [i] else []
  | none => []

/-- From `src/layer/visual.ts` (`Visual._applyEffects`): walk the effect
collection in index order from index `i0` and collect the indices of the
applied effects. -/
def applyEffectsGo : List (Option VEffect) → ℕ → List ℕ
  | [], _ => []
  | oe :: rest, i => effectSlot oe i ++ applyEffectsGo rest (i + 1)

/-- The indices of the effects applied by one run of `_applyEffects`. -/
def appliedEffectIdxs (effects : List (Option VEffect)) : List ℕ :=
  applyEffectsGo effects 0

/-- From `src/layer/visual.ts` (`get ready`): one observation of the
readiness accessor — the result is the base readiness AND the readiness
of every effect, and whenever that result is true a `"<type>.ready"`
event is published before returning. -/
def readyObserve (baseReady : Bool) (effects : List VEffect) (ltype : String) :
    Bool × List String :=
  let isReady := baseReady && effects.all (fun e => e.ready)
  (isReady, if isReady then [ltype ++ ".ready"] else [])

/-- The events published by `n` consecutive observations of the
readiness accessor on an unchanged layer. -/
def readyObserveN (baseReady : Bool) (effects : List VEffect) (ltype : String) :
    ℕ → List String
  | 0 => []
  | n + 1 => (readyObserve baseReady effects ltype).2
      ++ readyObserveN baseReady effects ltype n

/-- A sample layer object holding a literal numeric property. -/
def sampleObj : EtroObj := ⟨1, "layer", 2, [("prop", .lit (.num 7))]⟩

/-- The sample layer after its stored property has been replaced. -/
def sampleObjChanged : EtroObj := ⟨1, "layer", 2, [("prop", .lit (.num 9))]⟩

/-- A sample property filter ignoring the resolved value, as in the unit
test for `val` filters. -/
def constFilter : PropFilter := fun _ _ _ => .str "new value"

/-- A sample class-level filter table registering `constFilter` for the
property `prop`. -/
def sampleFilters : Filters := [("prop", constFilter)]

/-- An effect whose `enabled` property holds a keyframe track that
resolves to `false` at every time — the raw property is truthy (it is an
object), but the dynamically resolved value is false. -/
def trackFalseEffect : VEffect := ⟨.track [⟨0, .bool false, none⟩], true⟩

/-- A disabled effect: its raw `enabled` property is the literal false. -/
def disabledEffect : VEffect := ⟨.lit (.bool false), true⟩

/-- The same effect as an object of the dynamic value resolver, holding
the identical `enabled` keyframe track. -/
def trackFalseEffectObj : EtroObj :=
  ⟨5, "effect", 2, [("enabled", .track [⟨0, .bool false, none⟩])]⟩

/-- An effect that reports ready. -/
def readyEffect : VEffect := ⟨.lit (.bool true), true⟩

/-- The sample effect collection of the C8 witness: a truthy-enabled
slot, a hole, and a slot whose raw `enabled` is the literal false. -/
def sampleEffects : List (Option VEffect) :=
  [some trackFalseEffect, none, some disabledEffect]

/-- A visual layer whose stored width is null and whose stored height is
undefined. -/
def visualLayer : EtroObj :=
  ⟨7, "layer", 2, [("width", .lit .null), ("height", .lit EValue.undef)]⟩

/-- The class-level filter table of the Visual layer, for a movie of
dimensions 300 by 200. -/
def visualFilters : Filters :=
  [("width", visualWidthFilter (.num 300)), ("height", visualHeightFilter (.num 200))]

lemma head_time_le_mem {p x : CtrlPt} {rest : List CtrlPt}
    (hpw : TimesIncreasing (p :: rest)) (hx : x ∈ p :: rest) :
    p.time ≤ x.time := by
  rcases List.mem_cons.mp hx with h | h
  · exact le_of_eq (congrArg CtrlPt.time h.symm)
  · exact le_of_lt ((List.pairwise_cons.mp hpw).1 x h)

lemma resolveFrom_at_or_after_last {t : ℚ} :
    ∀ (p : CtrlPt) (rest : List CtrlPt),
      TimesIncreasing (p :: rest) →
      (((p :: rest).getLast (List.cons_ne_nil p rest)).time ≤ t) →
      resolveFrom t p rest = ((p :: rest).getLast (List.cons_ne_nil p rest)).value
  | p, [], _, _ => rfl
  | p, q :: rest, hpw, hlast => by
    have hpw2 : TimesIncreasing (q :: rest) := (List.pairwise_cons.mp hpw).2
    have hmem : (q :: rest).getLast (List.cons_ne_nil q rest) ∈ q :: rest :=
      List.getLast_mem _
    have hq : q.time ≤ ((q :: rest).getLast (List.cons_ne_nil q rest)).time :=
      head_time_le_mem hpw2 hmem
    have hlast2 : ((q :: rest).getLast (List.cons_ne_nil q rest)).time ≤ t := by
      simpa [List.getLast_cons (List.cons_ne_nil q rest)] using hlast
    have hnot : ¬ t < q.time := not_lt.mpr (le_trans hq hlast2)
    rw [resolveFrom, if_neg hnot, resolveFrom_at_or_after_last q rest hpw2 hlast2]
    simp [List.getLast_cons (List.cons_ne_nil q rest)]

lemma resolveFrom_bracket {t : ℚ} :
    ∀ (l1 : List CtrlPt) (p : CtrlPt) (rest l2 : List CtrlPt) (p0 p1 : CtrlPt),
      p :: rest = l1 ++ p0 :: p1 :: l2 →
      TimesIncreasing (p :: rest) →
      p0.time ≤ t → t < p1.time →
      resolveFrom t p rest = interpVal p0 p1 t
  | [], p, rest, l2, p0, p1, heq, _, _h0, h1 => by
    cases heq
    rw [resolveFrom, if_pos h1]
    rfl
  | a :: l1, p, rest, l2, p0, p1, heq, hpw, h0, h1 => by
    have hp : p = a := (List.cons_eq_cons.mp heq).1
    have hrest : rest = l1 ++ p0 :: p1 :: l2 := (List.cons_eq_cons.mp heq).2
    cases rest with
    | nil => exact absurd hrest (by simp)
    | cons q rest2 =>
      have hpw2 : TimesIncreasing (q :: rest2) := (List.pairwise_cons.mp hpw).2
      have hp0mem : p0 ∈ q :: rest2 := by
        rw [hrest]
        exact List.mem_append_right l1 (List.mem_cons_self p0 _)
      have hq : q.time ≤ p0.time := head_time_le_mem hpw2 hp0mem
      have hnot : ¬ t < q.time := not_lt.mpr (le_trans hq h0)
      rw [resolveFrom, if_neg hnot]
      exact resolveFrom_bracket l1 q rest2 l2 p0 p1 hrest hpw2 h0 h1

/-- Claim C1: for a Keyframe Track with strictly increasing control-point
times, `resolve(time)` returns the first value before the first point, the
last value at or after the last point, and between bracketing points the
earlier interpolator applied at progress `(t - t0) / (t1 - t0)` (or the
earlier value when no interpolator is given); in particular a two-point
numeric track `(0, a)`, `(d, b)` with linear interpolation resolves to
`a + (b - a) * t / d` on `[0, d]`, to `a` before `0`, and to `b` after `d`. -/
theorem keyframe_resolve_spec :
    (∀ (t : ℚ) (p : CtrlPt) (rest : List CtrlPt),
      TimesIncreasing (p :: rest) →
      ((t < p.time → kfResolve (p :: rest) t = some p.value)
        ∧ (((p :: rest).getLast (List.cons_ne_nil p rest)).time ≤ t →
            kfResolve (p :: rest) t
              = some ((p :: rest).getLast (List.cons_ne_nil p rest)).value)
        ∧ (∀ (l1 l2 : List CtrlPt) (p0 p1 : CtrlPt),
            p :: rest = l1 ++ p0 :: p1 :: l2 →
            p0.time ≤ t → t < p1.time →
            kfResolve (p :: rest) t = some (interpVal p0 p1 t))))
    ∧ (∀ a b d t : ℚ, 0 < d →
        ((0 ≤ t → t ≤ d →
          kfResolve [⟨0, .num a, some linearInterp⟩, ⟨d, .num b, none⟩] t
            = some (.num (a + (b - a) * t / d)))
         ∧ (t < 0 →
          kfResolve [⟨0, .num a, some linearInterp⟩, ⟨d, .num b, none⟩] t
            = some (.num a))
         ∧ (d < t →
          kfResolve [⟨0, .num a, some linearInterp⟩, ⟨d, .num b, none⟩] t
            = some (.num b)))) := by
  constructor
  · intro t p rest hpw
    refine ⟨fun hbefore => ?_, fun hafter => ?_, ?_⟩
    · rw [kfResolve, if_pos hbefore]
    · have hple : p.time ≤ t :=
        le_trans (head_time_le_mem hpw (List.getLast_mem _)) hafter
      rw [kfResolve, if_neg (not_lt.mpr hple),
        resolveFrom_at_or_after_last p rest hpw hafter]
    · intro l1 l2 p0 p1 heq h0 h1
      have hp0mem : p0 ∈ p :: rest := by
        rw [heq]
        exact List.mem_append_right l1 (List.mem_cons_self p0 _)
      have hple : p.time ≤ t := le_trans (head_time_le_mem hpw hp0mem) h0
      rw [kfResolve, if_neg (not_lt.mpr hple),
        resolveFrom_bracket l1 p rest l2 p0 p1 heq hpw h0 h1]
  · intro a b d t hd
    refine ⟨fun h0 h1 => ?_, fun hneg => ?_, fun hgt => ?_⟩
    · rcases lt_or_eq_of_le h1 with hlt | hteq
      · rw [kfResolve, if_neg (not_lt.mpr h0), resolveFrom, if_pos hlt]
        show some (linearInterp (.num a) (.num b) ((t - 0) / (d - 0))) = _
        rw [linearInterp]
        congr 1
        rw [EValue.num.injEq]
        ring
      · subst hteq
        rw [kfResolve, if_neg (not_lt.mpr h0), resolveFrom,
          if_neg (lt_irrefl t), resolveFrom]
        congr 1
        rw [EValue.num.injEq]
        field_simp
    · rw [kfResolve, if_pos hneg]
    · rw [kfResolve, if_neg (not_lt.mpr (le_trans (le_of_lt hd) (le_of_lt hgt))),
        resolveFrom, if_neg (not_lt.mpr (le_of_lt hgt)), resolveFrom]

/-- Witness for C1 at a concrete track: two points `(0, 0)` and `(4, 1)`
with linear interpolation, queried at `t = 2`. -/
theorem keyframe_resolve_spec_witness :
    (0 : ℚ) < 4 ∧ (0 : ℚ) ≤ 2 ∧ (2 : ℚ) ≤ 4 ∧
    kfResolve [⟨0, .num 0, some linearInterp⟩, ⟨4, .num 1, none⟩] 2
      = some (.num (0 + (1 - 0) * 2 / 4)) :=
  ⟨by norm_num, by norm_num, by norm_num,
    (keyframe_resolve_spec.2 0 1 4 2 (by norm_num)).1 (by norm_num) (by norm_num)⟩

lemma lookupF_cons_self {κ α : Type} [DecidableEq κ] (k : κ) (v : α)
    (c : List (κ × α)) : lookupF k ((k, v) :: c) = some v := by
  simp [lookupF]

lemma cacheLookup_clear (r : ℕ) (k : CacheKey) (hk : k.root = r) :
    ∀ c : Cache, cacheLookup (clearCachedValues r c) k = none := by
  intro c
  induction c with
  | nil => rfl
  | cons e c ih =>
    rcases e with ⟨ke, ve⟩
    by_cases he : ke.root = r
    · simpa [clearCachedValues, List.filter_cons, he] using ih
    · have hne : ke ≠ k := fun h => he (by rw [h, hk])
      simpa [clearCachedValues, List.filter_cons, he, cacheLookup, lookupF, hne]
        using ih

lemma val_cache_hit (filters : Filters) (c : Cache) (o : EtroObj)
    (path : String) (t : ℚ) (v : EValue)
    (h : cacheLookup c ⟨o.movieId, o.id, path, t⟩ = some v) :
    val filters c o path t = (v, c) := by
  simp [val, h]

lemma val_cache_miss (filters : Filters) (c : Cache) (o : EtroObj)
    (path : String) (t : ℚ)
    (h : cacheLookup c ⟨o.movieId, o.id, path, t⟩ = none) :
    val filters c o path t
      = (computeVal filters o path t,
        (⟨o.movieId, o.id, path, t⟩, computeVal filters o path t) :: c) := by
  simp [val, h]

/-- Claim C2: within one cache epoch a second `val` call for the same
`(object, property, time)` triple returns the identical cached result
without recomputation — even when the stored property has changed in the
meantime — and after `clearCachedValues` on the graph root of the object
a subsequent `val` call re-evaluates from the current stored state, so a
changed underlying keyframe track produces the new value. -/
theorem val_memoization_spec :
    ∀ (filters : Filters) (c : Cache) (o : EtroObj) (path : String) (t : ℚ),
      (val filters (val filters c o path t).2 o path t = val filters c o path t)
      ∧ (∀ o2 : EtroObj, o2.id = o.id → o2.movieId = o.movieId →
          val filters (val filters c o path t).2 o2 path t
            = val filters c o path t)
      ∧ (∀ o2 : EtroObj, o2.movieId = o.movieId →
          (val filters (clearCachedValues o.movieId (val filters c o path t).2)
              o2 path t).1
            = computeVal filters o2 path t) := by
  intro filters c o path t
  have h2 : ∀ o2 : EtroObj, o2.id = o.id → o2.movieId = o.movieId →
      val filters (val filters c o path t).2 o2 path t
        = val filters c o path t := by
    intro o2 hid hmov
    have hk2 : (⟨o2.movieId, o2.id, path, t⟩ : CacheKey)
        = ⟨o.movieId, o.id, path, t⟩ := by rw [hid, hmov]
    cases h1 : cacheLookup c ⟨o.movieId, o.id, path, t⟩ with
    | some v =>
      rw [val_cache_hit filters c o path t v h1,
        val_cache_hit filters c o2 path t v (by rw [hk2]; exact h1)]
    | none =>
      rw [val_cache_miss filters c o path t h1]
      rw [val_cache_hit filters _ o2 path t (computeVal filters o path t)
        (by rw [cacheLookup, hk2]; exact lookupF_cons_self _ _ _)]
  have h3 : ∀ o2 : EtroObj, o2.movieId = o.movieId →
      (val filters (clearCachedValues o.movieId (val filters c o path t).2)
          o2 path t).1
        = computeVal filters o2 path t := by
    intro o2 hmov
    have hclear : cacheLookup
        (clearCachedValues o.movieId (val filters c o path t).2)
        ⟨o2.movieId, o2.id, path, t⟩ = none :=
      cacheLookup_clear o.movieId _ hmov _
    rw [val_cache_miss filters _ o2 path t hclear]
  exact ⟨h2 o rfl rfl, h2, h3⟩

/-- Witness for C2: the sample object with its property changed between
the calls — the epoch-cached result survives the change, and after the
cache-clear the new value is computed. -/
theorem val_memoization_spec_witness :
    sampleObjChanged.id = sampleObj.id
    ∧ sampleObjChanged.movieId = sampleObj.movieId
    ∧ val [] (val [] [] sampleObj "prop" 0).2 sampleObjChanged "prop" 0
        = val [] [] sampleObj "prop" 0
    ∧ (val [] (clearCachedValues sampleObj.movieId
          (val [] [] sampleObj "prop" 0).2) sampleObjChanged "prop" 0).1
        = computeVal [] sampleObjChanged "prop" 0 :=
  ⟨rfl, rfl,
    (val_memoization_spec [] [] sampleObj "prop" 0).2.1 sampleObjChanged rfl rfl,
    (val_memoization_spec [] [] sampleObj "prop" 0).2.2 sampleObjChanged rfl⟩

lemma val_with_filter (filters : Filters) (c : Cache) (o : EtroObj)
    (path : String) (t : ℚ) (f : PropFilter)
    (hcache : cacheLookup c ⟨o.movieId, o.id, path, t⟩ = none)
    (hf : lookupF (topSeg path) filters = some f) :
    (val filters c o path t).1
      = f (shapeResolve (rawAt o path) o.id t) path o := by
  simp [val, hcache, computeVal, hf]

/-- Claim C3: when the class-level filter table has an entry for the
top-level segment of the property path, `val` returns the output of that
filter invoked with the shape-resolved value, the property name and the
owner — whatever the underlying raw or resolved value was. -/
theorem val_property_filter_spec :
    ∀ (filters : Filters) (c : Cache) (o : EtroObj) (path : String) (t : ℚ)
      (f : PropFilter),
      cacheLookup c ⟨o.movieId, o.id, path, t⟩ = none →
      lookupF (topSeg path) filters = some f →
      (val filters c o path t).1
        = f (shapeResolve (rawAt o path) o.id t) path o := by
  intro filters c o path t f hcache hf
  exact val_with_filter filters c o path t f hcache hf

/-- Witness for C3: the unit-test filter, registered for `prop`,
determines the result of `val` on the sample object. -/
theorem val_property_filter_spec_witness :
    cacheLookup [] ⟨sampleObj.movieId, sampleObj.id, "prop", 0⟩ = none
    ∧ lookupF (topSeg "prop") sampleFilters = some constFilter
    ∧ (val sampleFilters [] sampleObj "prop" 0).1
        = constFilter (shapeResolve (rawAt sampleObj "prop") sampleObj.id 0)
            "prop" sampleObj :=
  ⟨rfl, rfl,
    val_property_filter_spec sampleFilters [] sampleObj "prop" 0 constFilter rfl rfl⟩

/-- Claim C4: a write to an enumerable property of a watched object that
is not in its `publicExcludes` and counts as a change produces exactly
one Change Event carrying the target, `"<type>.change.modify"`, the
property name and the new value; a write to an excluded property
produces zero events. -/
theorem watchPublic_change_event_spec :
    ∀ (w : Watched) (name : String) (v : EValue),
      (name ∉ w.publicExcludes → writeCounts w name v = true →
        (writeProp w name v).2
          = [⟨w.id, w.otype ++ ".change.modify", name, v⟩])
      ∧ (name ∈ w.publicExcludes → (writeProp w name v).2 = []) := by
  intro w name v
  constructor
  · intro hnot hcount
    simp [writeProp, hnot, hcount]
  · intro hmem
    simp [writeProp, hmem]

/-- Witness for C4: the unit-test scenario — a first write of
`enabled = false` on a freshly watched layer yields exactly one event. -/
theorem watchPublic_change_event_spec_witness :
    "enabled" ∉ (⟨3, "layer", [], []⟩ : Watched).publicExcludes
    ∧ writeCounts ⟨3, "layer", [], []⟩ "enabled" (.bool false) = true
    ∧ (writeProp ⟨3, "layer", [], []⟩ "enabled" (.bool false)).2
        = [⟨3, "layer" ++ ".change.modify", "enabled", .bool false⟩] :=
  ⟨by simp, rfl,
    (watchPublic_change_event_spec ⟨3, "layer", [], []⟩ "enabled" (.bool false)).1
      (by simp) rfl⟩

/-- Claim C5: a write to a non-excluded property of a watchable child
held in a watched parent property produces exactly one event on the
parent with the dotted path `"<parentProperty>.<childProperty>"`; when
the exclusion list of the child lists the property, zero events are
produced whatever the exclusion list of the parent is. -/
theorem watchPublic_nested_spec :
    ∀ (parent : Watched) (parentProp : String) (child : Watched)
      (childProp : String) (v : EValue),
      (childProp ∉ child.publicExcludes → parentProp ∉ parent.publicExcludes →
        writeCounts child childProp v = true →
        nestedWriteEvents parent parentProp child childProp v
          = [⟨parent.id, parent.otype ++ ".change.modify",
              parentProp ++ "." ++ childProp, v⟩])
      ∧ (childProp ∈ child.publicExcludes →
        nestedWriteEvents parent parentProp child childProp v = []) := by
  intro parent pp child cp v
  constructor
  · intro h1 h2 h3
    simp [nestedWriteEvents, h2, writeProp, h1, h3]
  · intro h1
    by_cases hp : pp ∈ parent.publicExcludes
    · simp [nestedWriteEvents, hp]
    · simp [nestedWriteEvents, hp, writeProp, h1]

/-- Witness for C5: the two unit-test scenarios — a child canvas width
write surfaces on the parent movie as `canvas.width`, and a write to a
child-excluded property produces no event although the parent also
excludes it. -/
theorem watchPublic_nested_spec_witness :
    "width" ∉ (⟨11, "canvas", [], []⟩ : Watched).publicExcludes
    ∧ "canvas" ∉ (⟨10, "movie", [], []⟩ : Watched).publicExcludes
    ∧ writeCounts ⟨11, "canvas", [], []⟩ "width" (.num 100) = true
    ∧ nestedWriteEvents ⟨10, "movie", [], []⟩ "canvas" ⟨11, "canvas", [], []⟩
        "width" (.num 100)
        = [⟨10, "movie" ++ ".change.modify", "canvas" ++ "." ++ "width",
            .num 100⟩]
    ∧ "bar" ∈ (⟨11, "child", ["bar"], []⟩ : Watched).publicExcludes
    ∧ nestedWriteEvents ⟨10, "movie", ["bar"], []⟩ "child"
        ⟨11, "child", ["bar"], []⟩ "bar" (.num 100) = [] :=
  ⟨by simp, by simp, rfl,
    (watchPublic_nested_spec ⟨10, "movie", [], []⟩ "canvas" ⟨11, "canvas", [], []⟩
        "width" (.num 100)).1 (by simp) (by simp) rfl,
    by simp,
    (watchPublic_nested_spec ⟨10, "movie", ["bar"], []⟩ "child"
        ⟨11, "child", ["bar"], []⟩ "bar" (.num 100)).2 (by simp)⟩

lemma lookupF_some_mem_fst {α : Type} {k : String} {v : α} :
    ∀ {l : List (String × α)}, lookupF k l = some v → k ∈ l.map Prod.fst := by
  intro l
  induction l with
  | nil => intro h; exact absurd h (by simp [lookupF])
  | cons e rest ih =>
    rcases e with ⟨k2, v2⟩
    intro h
    by_cases hk : k2 = k
    · simp [hk]
    · rw [lookupF, if_neg hk] at h
      simp [ih h]

lemma applyOptions_find_none (options defaults : List (String × EValue))
    (target : TargetState)
    (h : options.find? (fun kv => decide (kv.1 ∉ defaults.map Prod.fst)) = none) :
    applyOptions options defaults target
      = .ok (mergedState options defaults target) := by
  unfold applyOptions
  rw [h]

lemma applyOptions_find_some (options defaults : List (String × EValue))
    (target : TargetState) (kv : String × EValue)
    (h : options.find? (fun kv => decide (kv.1 ∉ defaults.map Prod.fst))
      = some kv) :
    applyOptions options defaults target
      = .error ("Invalid option: \x27" ++ kv.1 ++ "\x27") := by
  unfold applyOptions
  rw [h]

/-- Claim C6: when a caller-supplied option key is absent from the
default-options mapping, `applyOptions` fails with an invalid-option
error naming an offending key, and the whole merge is aborted — the
result carries no merged state. -/
theorem applyOptions_invalid_spec :
    ∀ (options defaults : List (String × EValue)) (target : TargetState)
      (k : String),
      k ∈ options.map Prod.fst → k ∉ defaults.map Prod.fst →
      ∃ k2, k2 ∈ options.map Prod.fst ∧ k2 ∉ defaults.map Prod.fst ∧
        applyOptions options defaults target
          = .error ("Invalid option: \x27" ++ k2 ++ "\x27") := by
  intro options defaults target k hk hnk
  cases hf : options.find? (fun kv => decide (kv.1 ∉ defaults.map Prod.fst)) with
  | some kv =>
    refine ⟨kv.1, ?_, ?_, ?_⟩
    · exact List.mem_map_of_mem Prod.fst (List.mem_of_find?_eq_some hf)
    · have hp := List.find?_some hf
      simp only [decide_eq_true_eq] at hp
      exact hp
    · exact applyOptions_find_some options defaults target kv hf
  | none =>
    exfalso
    obtain ⟨e, hmem, hfst⟩ := List.mem_map.mp hk
    have hnone := List.find?_eq_none.mp hf e hmem
    simp only [decide_eq_true_eq, not_not] at hnone
    exact hnk (hfst ▸ hnone)

/-- Witness for C6: the unit-test scenario — an unknown option `foo`
against an empty default mapping is rejected. -/
theorem applyOptions_invalid_spec_witness :
    "foo" ∈ ([("foo", EValue.null)].map Prod.fst)
    ∧ "foo" ∉ (([] : List (String × EValue)).map Prod.fst)
    ∧ ∃ k2, k2 ∈ ([("foo", EValue.null)].map Prod.fst)
        ∧ k2 ∉ (([] : List (String × EValue)).map Prod.fst)
        ∧ applyOptions [("foo", EValue.null)] [] (fun _ => EValue.undef)
            = .error ("Invalid option: \x27" ++ k2 ++ "\x27") :=
  ⟨by simp, by simp,
    applyOptions_invalid_spec [("foo", EValue.null)] [] (fun _ => EValue.undef) "foo"
      (by simp) (by simp)⟩

/-- Claim C7: `applyOptions` never overwrites a key already holding a
non-undefined value on the target (not even with an explicitly supplied
option); with no supplied options it is a no-op on a target with every
default filled in, and on a fresh object it fills exactly the declared
defaults and nothing else. -/
theorem applyOptions_no_overwrite_spec :
    ∀ (options defaults : List (String × EValue)) (target : TargetState),
      (∀ k ∈ options.map Prod.fst, k ∈ defaults.map Prod.fst) →
      (applyOptions options defaults target
          = .ok (mergedState options defaults target))
      ∧ (∀ k, target k ≠ EValue.undef →
          mergedState options defaults target k = target k)
      ∧ ((∀ k ∈ defaults.map Prod.fst, target k ≠ EValue.undef) →
          applyOptions [] defaults target = .ok target)
      ∧ (applyOptions [] defaults (fun _ => EValue.undef)
          = .ok (fun k => (lookupF k defaults).getD EValue.undef)) := by
  intro options defaults target hvalid
  have hkeep : ∀ (tg : TargetState) (opts : List (String × EValue)) (k : String),
      tg k ≠ EValue.undef → mergedState opts defaults tg k = tg k := by
    intro tg opts k hk
    cases hlk : lookupF k defaults with
    | none => simp [mergedState, hlk]
    | some d =>
      cases htk : tg k <;> simp_all [mergedState, hlk, htk]
  have hnone0 : ([] : List (String × EValue)).find?
      (fun kv => decide (kv.1 ∉ defaults.map Prod.fst)) = none := rfl
  refine ⟨?_, hkeep target options, ?_, ?_⟩
  · have hnone : options.find?
        (fun kv => decide (kv.1 ∉ defaults.map Prod.fst)) = none := by
      rw [List.find?_eq_none]
      intro kv hkv
      simp only [decide_eq_true_eq, not_not]
      exact hvalid kv.1 (List.mem_map_of_mem Prod.fst hkv)
    exact applyOptions_find_none options defaults target hnone
  · intro hset
    have hmerge : mergedState [] defaults target = target := by
      funext k
      cases hlk : lookupF k defaults with
      | none => simp [mergedState, hlk]
      | some d => exact hkeep target [] k (hset k (lookupF_some_mem_fst hlk))
    rw [applyOptions_find_none [] defaults target hnone0, hmerge]
  · have hmerge : mergedState [] defaults (fun _ => EValue.undef)
        = fun k => (lookupF k defaults).getD EValue.undef := by
      funext k
      cases hlk : lookupF k defaults with
      | none => simp [mergedState, hlk]
      | some d => simp [mergedState, hlk, lookupF]
    rw [applyOptions_find_none [] defaults _ hnone0, hmerge]

/-- Witness for C7: a target with `x` already set keeps its value even
though `x` is explicitly supplied, and a fresh object receives exactly
the declared defaults. -/
theorem applyOptions_no_overwrite_spec_witness :
    (∀ k ∈ ([("x", EValue.num 5)].map Prod.fst),
      k ∈ ([("x", EValue.num 1), ("y", EValue.num 2)].map Prod.fst))
    ∧ (fun k => if k = "x" then EValue.num 9 else EValue.undef) "x" ≠ EValue.undef
    ∧ mergedState [("x", EValue.num 5)] [("x", EValue.num 1), ("y", EValue.num 2)]
        (fun k => if k = "x" then EValue.num 9 else EValue.undef) "x"
        = (fun k => if k = "x" then EValue.num 9 else EValue.undef) "x"
    ∧ applyOptions [] [("x", EValue.num 1), ("y", EValue.num 2)]
        (fun _ => EValue.undef)
        = .ok (fun k =>
            (lookupF k [("x", EValue.num 1), ("y", EValue.num 2)]).getD EValue.undef) :=
  ⟨by simp, by simp,
    (applyOptions_no_overwrite_spec [("x", EValue.num 5)]
        [("x", EValue.num 1), ("y", EValue.num 2)]
        (fun k => if k = "x" then EValue.num 9 else EValue.undef)
        (by simp)).2.1 "x" (by simp),
    (applyOptions_no_overwrite_spec [("x", EValue.num 5)]
        [("x", EValue.num 1), ("y", EValue.num 2)]
        (fun k => if k = "x" then EValue.num 9 else EValue.undef)
        (by simp)).2.2.2⟩

lemma mem_applyEffectsGo :
    ∀ (l : List (Option VEffect)) (i0 i : ℕ),
      i ∈ applyEffectsGo l i0 ↔
        ∃ j eff, l.get? j = some (some eff) ∧ dynTruthy eff.enabled = true
          ∧ i = i0 + j := by
  intro l
  induction l with
  | nil => intro i0 i; simp [applyEffectsGo]
  | cons oe rest ih =>
    intro i0 i
    rw [applyEffectsGo, List.mem_append]
    constructor
    · rintro (h | h)
      · cases oe with
        | some eff =>
          by_cases ht : dynTruthy eff.enabled
          · simp only [effectSlot, ht, if_true, List.mem_singleton] at h
            exact ⟨0, eff, by simp, ht, by omega⟩
          · simp [effectSlot, ht] at h
        | none => simp [effectSlot] at h
      · obtain ⟨j, eff, hj, ht, hi⟩ := (ih (i0 + 1) i).mp h
        exact ⟨j + 1, eff, by simpa using hj, ht, by omega⟩
    · rintro ⟨j, eff, hj, ht, hi⟩
      cases j with
      | zero =>
        left
        simp only [List.get?_cons_zero, Option.some.injEq] at hj
        subst hj
        simp [effectSlot, ht, hi]
      | succ j =>
        right
        refine (ih (i0 + 1) i).mpr ⟨j, eff, by simpa using hj, ht, by omega⟩

lemma applyEffectsGo_lb :
    ∀ (l : List (Option VEffect)) (i0 : ℕ), ∀ i ∈ applyEffectsGo l i0, i0 ≤ i := by
  intro l
  induction l with
  | nil => intro i0 i hi; simp [applyEffectsGo] at hi
  | cons oe rest ih =>
    intro i0 i hi
    rw [applyEffectsGo, List.mem_append] at hi
    rcases hi with h | h
    · cases oe with
      | some eff =>
        by_cases ht : dynTruthy eff.enabled
        · simp [effectSlot, ht] at h
          omega
        · simp [effectSlot, ht] at h
      | none => simp [effectSlot] at h
    · have := ih (i0 + 1) i h
      omega

lemma applyEffectsGo_sorted :
    ∀ (l : List (Option VEffect)) (i0 : ℕ),
      List.Pairwise (fun a b => a < b) (applyEffectsGo l i0) := by
  intro l
  induction l with
  | nil => intro i0; simp [applyEffectsGo]
  | cons oe rest ih =>
    intro i0
    rw [applyEffectsGo, List.pairwise_append]
    refine ⟨?_, ih (i0 + 1), ?_⟩
    · cases oe with
      | some eff =>
        by_cases ht : dynTruthy eff.enabled
        · simp [effectSlot, ht]
        · simp [effectSlot, ht]
      | none => simp [effectSlot]
    · intro a ha b hb
      have hb2 := applyEffectsGo_lb rest (i0 + 1) b hb
      cases oe with
      | some eff =>
        by_cases ht : dynTruthy eff.enabled
        · simp [effectSlot, ht] at ha
          omega
        · simp [effectSlot, ht] at ha
      | none => simp [effectSlot] at ha

/-- Claim C8 as amended: during per-frame effect application the effects
are iterated in index order, and an effect is applied exactly when its
slot is occupied and its raw `enabled` property is truthy — the `enabled`
flag is read directly (`if (effect && effect.enabled)`), not resolved
through the dynamic value resolver. -/
theorem applyEffects_raw_enabled_spec :
    ∀ (effects : List (Option VEffect)),
      (∀ i : ℕ, i ∈ appliedEffectIdxs effects ↔
        ∃ eff, effects.get? i = some (some eff) ∧ dynTruthy eff.enabled = true)
      ∧ List.Pairwise (fun a b => a < b) (appliedEffectIdxs effects) := by
  intro effects
  refine ⟨?_, applyEffectsGo_sorted effects 0⟩
  intro i
  rw [appliedEffectIdxs, mem_applyEffectsGo]
  constructor
  · rintro ⟨j, eff, hj, ht, hi⟩
    have : j = i := by omega
    subst this
    exact ⟨eff, hj, ht⟩
  · rintro ⟨eff, hj, ht⟩
    exact ⟨i, eff, hj, ht, by omega⟩

/-- Counterexample to C8 as stated: at index 0, with an effect whose
`enabled` keyframe track resolves to `false` at time 0, the loop of
`_applyEffects` does apply the effect (the raw `enabled` is a truthy
object) although the flag resolved through the dynamic value resolver is
not true — so "applied iff resolved enabled is true" fails. -/
theorem applyEffects_val_claim_counterexample :
    ¬ ((0 ∈ appliedEffectIdxs [some trackFalseEffect]) ↔
      jsTruthy (val [] [] trackFalseEffectObj "enabled" 0).1 = true) := by
  intro h
  have h0 : 0 ∈ appliedEffectIdxs [some trackFalseEffect] := by
    have he : appliedEffectIdxs [some trackFalseEffect] = [0] := rfl
    rw [he]
    exact List.mem_singleton.mpr rfl
  have hval : (val [] [] trackFalseEffectObj "enabled" 0).1 = .bool false := rfl
  have hres := h.mp h0
  rw [hval] at hres
  simp [jsTruthy] at hres

/-- Claim C9 as amended: the readiness accessor returns true exactly when
the base readiness holds and every contained effect is ready, and every
observation of the accessor while the layer is ready publishes one
`"<type>.ready"` event — so `n` consecutive observations of a ready layer
publish `n` events, not one. -/
theorem ready_publish_every_observation_spec :
    ∀ (b : Bool) (effects : List VEffect) (ltype : String),
      ((readyObserve b effects ltype).1 = true ↔
        (b = true ∧ ∀ e ∈ effects, e.ready = true))
      ∧ (∀ n : ℕ, readyObserveN b effects ltype n
          = List.replicate (if (readyObserve b effects ltype).1 then n else 0)
              (ltype ++ ".ready")) := by
  intro b effects ltype
  constructor
  · simp [readyObserve, List.all_eq_true]
  · intro n
    induction n with
    | zero => simp [readyObserveN]
    | succ n ih =>
      rw [readyObserveN, ih]
      cases hr : (b && effects.all (fun e => e.ready)) with
      | true => simp [readyObserve, hr, List.replicate_succ]
      | false => simp [readyObserve, hr]

/-- Counterexample to C9 as stated: a layer that is ready publishes a
`"<type>.ready"` event on every observation of the accessor — two
consecutive observations publish two events, not exactly one. -/
theorem ready_once_claim_counterexample :
    (readyObserve true [readyEffect] "layer").1 = true
    ∧ readyObserveN true [readyEffect] "layer" 2
        = ["layer" ++ ".ready", "layer" ++ ".ready"]
    ∧ readyObserveN true [readyEffect] "layer" 2 ≠ ["layer" ++ ".ready"] := by
  exact ⟨rfl, rfl, by decide⟩

lemma cacheLookup_cons_ne (k1 k2 : CacheKey) (v : EValue) (c : Cache)
    (h : k1 ≠ k2) : cacheLookup ((k1, v) :: c) k2 = cacheLookup c k2 := by
  simp [cacheLookup, lookupF, h]

lemma visualWidthFilter_ne (mw : ℚ) (v : EValue) (s : String) (o : EtroObj) :
    visualWidthFilter (.num mw) v s o ≠ .null
    ∧ visualWidthFilter (.num mw) v s o ≠ EValue.undef := by
  cases v <;> simp [visualWidthFilter]

lemma visualHeightFilter_ne (mh : ℚ) (v : EValue) (s : String) (o : EtroObj) :
    visualHeightFilter (.num mh) v s o ≠ .null
    ∧ visualHeightFilter (.num mh) v s o ≠ EValue.undef := by
  cases v <;> simp [visualHeightFilter]

lemma visualWidthFilter_nullish (mw : ℚ) (v : EValue) (s : String) (o : EtroObj)
    (h : v = .null ∨ v = EValue.undef) : visualWidthFilter (.num mw) v s o = .num mw := by
  rcases h with h | h <;> subst h <;> rfl

lemma visualHeightFilter_nullish (mh : ℚ) (v : EValue) (s : String) (o : EtroObj)
    (h : v = .null ∨ v = EValue.undef) : visualHeightFilter (.num mh) v s o = .num mh := by
  rcases h with h | h <;> subst h <;> rfl

/-- Claim C10: with the class-level width and height filters of the
Visual layer installed and the movie dimensions numeric, `val` on
`width` and `height` never returns null or undefined, and whenever the
stored width (or height) resolves to null or undefined the dimension
assigned to the canvas in `beginRender` is the movie width (or height). -/
theorem visual_width_height_filter_spec :
    ∀ (filters : Filters) (c : Cache) (o : EtroObj) (t : ℚ) (mw mh : ℚ),
      lookupF (topSeg "width") filters = some (visualWidthFilter (.num mw)) →
      lookupF (topSeg "height") filters = some (visualHeightFilter (.num mh)) →
      cacheLookup c ⟨o.movieId, o.id, "width", t⟩ = none →
      cacheLookup c ⟨o.movieId, o.id, "height", t⟩ = none →
      ((val filters c o "width" t).1 ≠ .null
        ∧ (val filters c o "width" t).1 ≠ EValue.undef
        ∧ (val filters c o "height" t).1 ≠ .null
        ∧ (val filters c o "height" t).1 ≠ EValue.undef)
      ∧ (shapeResolve (rawAt o "width") o.id t = .null
          ∨ shapeResolve (rawAt o "width") o.id t = EValue.undef →
          (beginRenderDims filters c o t).1.1 = .num mw)
      ∧ (shapeResolve (rawAt o "height") o.id t = .null
          ∨ shapeResolve (rawAt o "height") o.id t = EValue.undef →
          (beginRenderDims filters c o t).1.2 = .num mh) := by
  intro filters c o t mw mh hfw hfh hcw hch
  have hw : (val filters c o "width" t).1
      = visualWidthFilter (.num mw) (shapeResolve (rawAt o "width") o.id t)
          "width" o :=
    val_with_filter filters c o "width" t _ hcw hfw
  have hh : (val filters c o "height" t).1
      = visualHeightFilter (.num mh) (shapeResolve (rawAt o "height") o.id t)
          "height" o :=
    val_with_filter filters c o "height" t _ hch hfh
  have hkne : (⟨o.movieId, o.id, "width", t⟩ : CacheKey)
      ≠ ⟨o.movieId, o.id, "height", t⟩ := by
    intro h
    have hpath : ("width" : String) = "height" := congrArg CacheKey.path h
    exact absurd hpath (by decide)
  have hcw2 : computeVal filters o "width" t
      = visualWidthFilter (.num mw) (shapeResolve (rawAt o "width") o.id t)
          "width" o := by
    simp only [computeVal, hfw]
  have hwidth := val_cache_miss filters c o "width" t hcw
  have hch2 : cacheLookup (val filters c o "width" t).2
      ⟨o.movieId, o.id, "height", t⟩ = none := by
    rw [hwidth]
    rw [cacheLookup_cons_ne _ _ _ _ hkne]
    exact hch
  have hh2 : (val filters (val filters c o "width" t).2 o "height" t).1
      = visualHeightFilter (.num mh) (shapeResolve (rawAt o "height") o.id t)
          "height" o :=
    val_with_filter filters _ o "height" t _ hch2 hfh
  have hbw : (beginRenderDims filters c o t).1.1 = (val filters c o "width" t).1 := rfl
  have hbh : (beginRenderDims filters c o t).1.2
      = (val filters (val filters c o "width" t).2 o "height" t).1 := rfl
  refine ⟨⟨?_, ?_, ?_, ?_⟩, ?_, ?_⟩
  · rw [hw]; exact (visualWidthFilter_ne mw _ _ _).1
  · rw [hw]; exact (visualWidthFilter_ne mw _ _ _).2
  · rw [hh]; exact (visualHeightFilter_ne mh _ _ _).1
  · rw [hh]; exact (visualHeightFilter_ne mh _ _ _).2
  · intro hnull
    rw [hbw, hw]
    exact visualWidthFilter_nullish mw _ _ _ hnull
  · intro hnull
    rw [hbh, hh2]
    exact visualHeightFilter_nullish mh _ _ _ hnull

/-- Witness for C10: on the sample layer with null width and undefined
height, `val` returns the movie dimensions, which `beginRender` assigns
to the canvas. -/
theorem visual_width_height_filter_spec_witness :
    lookupF (topSeg "width") visualFilters = some (visualWidthFilter (.num 300))
    ∧ lookupF (topSeg "height") visualFilters = some (visualHeightFilter (.num 200))
    ∧ cacheLookup [] ⟨visualLayer.movieId, visualLayer.id, "width", 0⟩ = none
    ∧ cacheLookup [] ⟨visualLayer.movieId, visualLayer.id, "height", 0⟩ = none
    ∧ (val visualFilters [] visualLayer "width" 0).1 ≠ .null
    ∧ (beginRenderDims visualFilters [] visualLayer 0).1.1 = .num 300
    ∧ (beginRenderDims visualFilters [] visualLayer 0).1.2 = .num 200 :=
  ⟨rfl, rfl, rfl, rfl,
    (visual_width_height_filter_spec visualFilters [] visualLayer 0 300 200
      rfl rfl rfl rfl).1.1,
    (visual_width_height_filter_spec visualFilters [] visualLayer 0 300 200
      rfl rfl rfl rfl).2.1 (Or.inl rfl),
    (visual_width_height_filter_spec visualFilters [] visualLayer 0 300 200
      rfl rfl rfl rfl).2.2 (Or.inr rfl)⟩

/-- Witness for the amended C8 at the sample effect collection: index 0
(truthy raw enabled) is applied, and the applied indices are in strictly
increasing index order. -/
theorem applyEffects_raw_enabled_spec_witness :
    (0 ∈ appliedEffectIdxs sampleEffects ↔
      ∃ eff, sampleEffects.get? 0 = some (some eff)
        ∧ dynTruthy eff.enabled = true)
    ∧ List.Pairwise (fun a b => a < b) (appliedEffectIdxs sampleEffects) :=
  ⟨(applyEffects_raw_enabled_spec sampleEffects).1 0,
    (applyEffects_raw_enabled_spec sampleEffects).2⟩

/-- Witness for the amended C9 at a concrete ready layer: three
consecutive observations publish three ready events. -/
theorem ready_publish_every_observation_spec_witness :
    ((readyObserve true [readyEffect] "layer").1 = true ↔
      (true = true ∧ ∀ e ∈ [readyEffect], e.ready = true))
    ∧ readyObserveN true [readyEffect] "layer" 3
        = List.replicate
            (if (readyObserve true [readyEffect] "layer").1 then 3 else 0)
            ("layer" ++ ".ready") :=
  ⟨(ready_publish_every_observation_spec true [readyEffect] "layer").1,
    (ready_publish_every_observation_spec true [readyEffect] "layer").2 3⟩

end Etro
